import Mathlib

/-!
Verification of the backtracking decision tree `BTRFTree` (src/src/btrf_tree.hpp).

The repository ships only the class declaration (`btrf_tree.hpp`); the member
function bodies (`buildTree`, `predict`, `searchLevel`, `computeRandomFeature`,
`hashLeafNode`, `recordLeafNodes`, `get`/`setLeafNodeDescriptor`) are not part
of the sources.  Every operation below is therefore modelled from the spec
(sections 3, 4.1-4.6, 6, 7 of spec.md), keeping the names and the state layout
of the header (`root_`, `leaf_node_num_`, `leaf_nodes_`, `tree_param_`,
`rnd_generator_`).  Real-valued quantities (pixel channels, descriptors, 3D
labels, distances) are embedded as rationals; the flann `L2` distance functor
is the sum of squared coordinate differences.
-/

namespace BTRF

/-- Modelled from the spec (missing `btrf_util.hpp`): a `RandomSplitParameter`
is "a candidate or chosen split descriptor — two pixel offsets, a channel
selector, and (once optimized) a scalar threshold" (spec section 3). -/
structure RandomSplitParameter where
  offset1x : Int
  offset1y : Int
  offset2x : Int
  offset2y : Int
  channel : Nat
  threshold : ℚ
deriving Repr, DecidableEq

/-- Modelled from the spec (missing `btrf_util.hpp`): a `SCRFRandomSample`
("FeatureType") is "an identifier for a sampled pixel location plus any
per-sample context needed to evaluate a feature, e.g. depth for scale
adaptation" (spec section 3).  `imageIndex` selects the sample's source image,
`descriptor` is the local patch descriptor compared at the leaves. -/
structure SCRFRandomSample where
  x : Int
  y : Int
  invDepth : ℚ
  imageIndex : Nat
  descriptor : List ℚ
deriving DecidableEq

/-- An RGB image: an opaque 2D pixel-lookup surface with indexable channel
values (spec section 1).  `pixel x y c` is the value of channel `c` at
column `x`, row `y`. -/
structure RGBImage where
  width : Int
  height : Int
  pixel : Int → Int → Nat → ℚ

/-- Modelled from the spec (missing `btrf_util.hpp`): the recognized
`BTRFTreeParameter` configuration options — "candidate feature count per
split, candidate threshold count per feature, maximum depth, minimum samples
per leaf" (spec section 3). -/
structure BTRFTreeParameter where
  maxTreeDepth : Nat
  minLeafNode : Nat
  candidateFeatureNum : Nat
  candidateThresholdNum : Nat
deriving Repr, DecidableEq

/-- Modelled from the spec (missing `btrf_tree_node.hpp`): `BTRFTreeNode` is
"polymorphic over Internal, Leaf" — an internal node owns two children, the
chosen split parameter and its creation depth; a leaf holds an aggregated
descriptor (mean label), the local patch descriptor compared at query time, a
unique leaf index assigned post-build, and the training sample indices that
reached it (spec section 3, section 4.4). -/
inductive BTRFTreeNode where
  | internal (depth : Nat) (split : RandomSplitParameter)
      (left : BTRFTreeNode) (right : BTRFTreeNode) : BTRFTreeNode
  | leaf (leafIndex : Nat) (label : List ℚ) (descriptor : List ℚ)
      (sampleIndices : List Nat) : BTRFTreeNode
deriving DecidableEq

namespace BTRFTreeNode

/-- Number of leaf nodes of a subtree. -/
def leafCount : BTRFTreeNode → Nat
  | internal _ _ l r => leafCount l + leafCount r
  | leaf _ _ _ _ => 1

/-- Leaves of a subtree, in depth-first left-to-right order. -/
def collectLeaves : BTRFTreeNode → List BTRFTreeNode
  | internal _ _ l r => collectLeaves l ++ collectLeaves r
  | leaf i lb d s => [leaf i lb d s]

/-- The stored leaf index of a node (0 for internal nodes). -/
def leafIndexOf : BTRFTreeNode → Nat
  | internal _ _ _ _ => 0
  | leaf i _ _ _ => i

/-- The stored leaf descriptor of a node ([] for internal nodes). -/
def descriptorOf : BTRFTreeNode → List ℚ
  | internal _ _ _ _ => []
  | leaf _ _ d _ => d

/-- The stored leaf label (mean 3D location) of a node ([] for internal
nodes). -/
def labelOf : BTRFTreeNode → List ℚ
  | internal _ _ _ _ => []
  | leaf _ lb _ _ => lb

/-- The stored training sample indices of a leaf ([] for internal nodes). -/
def sampleIndicesOf : BTRFTreeNode → List Nat
  | internal _ _ _ _ => []
  | leaf _ _ _ s => s

end BTRFTreeNode

open BTRFTreeNode

/-- Modelled from the spec (missing `BTRFTree::recordLeafNodes` body, header
lines 147-149): the post-build traversal that assigns "each leaf a unique
sequential index starting at 0" in a deterministic left-to-right depth-first
order and populates "a flat array of leaf references" (spec section 4.5).
Returns the re-indexed subtree, the flat leaf array of that subtree, and the
next free leaf index. -/
def recordLeafNodes : BTRFTreeNode → Nat →
    BTRFTreeNode × List BTRFTreeNode × Nat
  | .internal d s l r, idx =>
      (.internal d s (recordLeafNodes l idx).1
         (recordLeafNodes r (recordLeafNodes l idx).2.2).1,
       (recordLeafNodes l idx).2.1 ++
         (recordLeafNodes r (recordLeafNodes l idx).2.2).2.1,
       (recordLeafNodes r (recordLeafNodes l idx).2.2).2.2)
  | .leaf _ lb de sa, idx =>
      (.leaf idx lb de sa, [.leaf idx lb de sa], idx + 1)

/-- A default node, used only as the out-of-range value of `List.getD`. -/
def defaultNode : BTRFTreeNode := .leaf 0 [] [] []

/-! ### Feature evaluation (`computeRandomFeature`) -/
/-- Modelled from the spec (missing `BTRFTree::computeRandomFeature` body,
header lines 176-178): the "documented, deterministic" fallback value returned
"when an offset lands outside image bounds" (spec sections 4.1 and 7). -/
def outOfBoundsSentinel : ℚ := 0

/-- Whether pixel `(x, y)` lies inside the image bounds. -/
def insideImage (img : RGBImage) (x y : Int) : Bool :=
  decide (0 ≤ x) && decide (x < img.width) &&
    decide (0 ≤ y) && decide (y < img.height)

/-- First offset pixel of a split evaluated on a sample: the anchor pixel
displaced by the depth-scaled first offset. -/
def offsetPixel1 (feat : SCRFRandomSample) (split : RandomSplitParameter) :
    Int × Int :=
  (feat.x + ⌊(split.offset1x : ℚ) * feat.invDepth⌋,
   feat.y + ⌊(split.offset1y : ℚ) * feat.invDepth⌋)

/-- Second offset pixel of a split evaluated on a sample. -/
def offsetPixel2 (feat : SCRFRandomSample) (split : RandomSplitParameter) :
    Int × Int :=
  (feat.x + ⌊(split.offset2x : ℚ) * feat.invDepth⌋,
   feat.y + ⌊(split.offset2y : ℚ) * feat.invDepth⌋)

/-- Modelled from the spec (missing `BTRFTree::computeRandomFeature` body):
"the signed difference between the two offset pixels' selected channel value,
sampled from the given image at the sample's (possibly depth-scaled) location";
when either offset pixel lands outside the image bounds it "fails gracefully"
and returns the sentinel (spec section 4.1). -/
def computeRandomFeature (img : RGBImage) (feat : SCRFRandomSample)
    (split : RandomSplitParameter) : ℚ :=
  if insideImage img (offsetPixel1 feat split).1 (offsetPixel1 feat split).2 &&
      insideImage img (offsetPixel2 feat split).1 (offsetPixel2 feat split).2
  then
    img.pixel (offsetPixel1 feat split).1 (offsetPixel1 feat split).2
        split.channel -
      img.pixel (offsetPixel2 feat split).1 (offsetPixel2 feat split).2
        split.channel
  else
    outOfBoundsSentinel

/-- A default sample, used only as the out-of-range value of `List.getD`. -/
def defaultSample : SCRFRandomSample := ⟨0, 0, 0, 0, []⟩

/-- A default image, used only as the out-of-range value of `List.getD`. -/
def defaultImage : RGBImage := ⟨0, 0, fun _ _ _ => 0⟩

/-- Response of training/query sample number `i`: its pixel-comparison feature
evaluated on its own source image (spec section 4.2, step 2). -/
def sampleResponse (features : List SCRFRandomSample) (images : List RGBImage)
    (split : RandomSplitParameter) (i : Nat) : ℚ :=
  computeRandomFeature
    (images.getD (features.getD i defaultSample).imageIndex defaultImage)
    (features.getD i defaultSample) split

/-! ### Random source (`DTRandom`) -/
/-- Modelled from the spec (missing `dt_random.hpp`): the seedable random
source `rnd_generator_`, "an injectable, seedable dependency" whose
implementation details beyond determinism are out of scope (spec sections 1
and 9); embedded as a linear congruential step on a `Nat` state. -/
def dtRandNext (s : Nat) : Nat := (1103515245 * s + 12345) % 2 ^ 31

/-- Pixel-offset range of the random feature generator. -/
def featureOffsetRange : Int := 64

/-- Modelled from the spec (missing random feature generation body):
"given a random source, produce one depth-adapted pixel-comparison feature
candidate: two offsets from a sample's anchor pixel and a channel selector.
Pure function of the random state; no side effects beyond advancing the
random sequence" (spec section 4.1).  The threshold is left 0 until
optimization. -/
def generateRandomFeature (s : Nat) : RandomSplitParameter × Nat :=
  let s1 := dtRandNext s
  let s2 := dtRandNext s1
  let s3 := dtRandNext s2
  let s4 := dtRandNext s3
  let s5 := dtRandNext s4
  (⟨(s1 % 129 : Nat) - featureOffsetRange,
    (s2 % 129 : Nat) - featureOffsetRange,
    (s3 % 129 : Nat) - featureOffsetRange,
    (s4 % 129 : Nat) - featureOffsetRange,
    s5 % 3, 0⟩, s5)

/-! ### Label statistics -/
/-- Componentwise sum of two vectors. -/
def vecAdd (a b : List ℚ) : List ℚ := List.zipWith (· + ·) a b

/-- Mean of a list of equal-length vectors ([] when the list is empty). -/
def meanVecs : List (List ℚ) → List ℚ
  | [] => []
  | v :: rest =>
      (List.foldl vecAdd v rest).map (fun x => x / (rest.length + 1 : ℚ))

/-- Mean label (3D location) over a subset of sample indices
(spec section 4.4). -/
def meanLabel (labels : List (List ℚ)) (indices : List Nat) : List ℚ :=
  meanVecs (indices.map (fun i => labels.getD i []))

/-- Mean local patch descriptor over a subset of sample indices. -/
def meanDescriptor (features : List SCRFRandomSample)
    (indices : List Nat) : List ℚ :=
  meanVecs (indices.map (fun i => (features.getD i defaultSample).descriptor))

/-- Squared L2 distance between two vectors: the flann `L2<float>` distance
functor is the sum of squared coordinate differences. -/
def sqDist (a b : List ℚ) : ℚ := (List.zipWith (fun x y => (x - y) ^ 2) a b).sum

/-- Within-subset label spread: sum over the subset of the squared distance of
each label to the subset mean (the "regression variance objective",
spec section 4.2 step 4). -/
def labelVariance (labels : List (List ℚ)) (indices : List Nat) : ℚ :=
  (indices.map
    (fun i => sqDist (labels.getD i []) (meanLabel labels indices))).sum

/-! ### Split optimization (`optimizeThreshold`, `optimizeRandomFeature`) -/
/-- Whether sample `i` is routed to the left child of a split: its response is
strictly below the split threshold (spec section 4.2, step 3). -/
def splitGoesLeft (features : List SCRFRandomSample) (images : List RGBImage)
    (split : RandomSplitParameter) (i : Nat) : Bool :=
  decide (sampleResponse features images split i < split.threshold)

/-- Modelled from the spec (missing `BTRFTree::optimizeThreshold` body, header
lines 130-137, partitioning step): split a subset into "left (response <
threshold) and right (response ≥ threshold) partitions"
(spec section 4.2, step 3). -/
def splitIndices (features : List SCRFRandomSample) (images : List RGBImage)
    (split : RandomSplitParameter) (indices : List Nat) :
    List Nat × List Nat :=
  (indices.filter (fun i => splitGoesLeft features images split i),
   indices.filter (fun i => ! splitGoesLeft features images split i))

/-- Score of one candidate threshold: `none` when a partition is empty
(the candidate is invalid), otherwise the sum of the two within-partition
label variances (spec section 4.2, steps 3-4, and the degenerate case of
section 4.2). -/
def scoreThreshold (features : List SCRFRandomSample)
    (labels : List (List ℚ)) (images : List RGBImage) (indices : List Nat)
    (split0 : RandomSplitParameter) (thr : ℚ) : Option ℚ :=
  let p := splitIndices features images { split0 with threshold := thr } indices
  if p.1.isEmpty || p.2.isEmpty then none
  else some (labelVariance labels p.1 + labelVariance labels p.2)

/-- Candidate thresholds for one feature: `num` evenly spaced values strictly
between the minimum and maximum response ("sampled from the response
distribution, such as evenly spaced quantiles", spec section 4.2 step 3). -/
def candidateThresholds (responses : List ℚ) (num : Nat) : List ℚ :=
  let lo := responses.foldl min (responses.headD 0)
  let hi := responses.foldl max (responses.headD 0)
  (List.range num).map
    (fun k => lo + (hi - lo) * (k + 1 : ℚ) / (num + 1 : ℚ))

/-- First-wins argmin over candidate thresholds: returns the best
`(score, threshold)` among the valid candidates, the first candidate
achieving the minimum winning (spec section 4.2 tie-break). -/
def bestValidThreshold (features : List SCRFRandomSample)
    (labels : List (List ℚ)) (images : List RGBImage) (indices : List Nat)
    (split0 : RandomSplitParameter) (thrs : List ℚ) : Option (ℚ × ℚ) :=
  thrs.foldl
    (fun best thr =>
      match scoreThreshold features labels images indices split0 thr, best with
      | none, b => b
      | some sc, none => some (sc, thr)
      | some sc, some b => if sc < b.1 then some (sc, thr) else some b)
    none

/-- Modelled from the spec (missing `BTRFTree::optimizeThreshold` body, header
lines 130-137): optimize the threshold of one random feature over
`candidateThresholdNum` candidate thresholds; `none` when no candidate yields
two non-empty partitions (spec section 4.2, steps 2-4 and degenerate case).
On success returns the score, the completed split parameter and the resulting
left/right index partitions. -/
def optimizeThreshold (features : List SCRFRandomSample)
    (labels : List (List ℚ)) (images : List RGBImage) (indices : List Nat)
    (param : BTRFTreeParameter) (split0 : RandomSplitParameter) :
    Option (ℚ × RandomSplitParameter × List Nat × List Nat) :=
  let responses := indices.map (sampleResponse features images split0)
  match bestValidThreshold features labels images indices split0
      (candidateThresholds responses param.candidateThresholdNum) with
  | none => none
  | some (sc, thr) =>
      some (sc, { split0 with threshold := thr },
        splitIndices features images { split0 with threshold := thr } indices)

/-- One candidate-feature round of `optimizeRandomFeature`: draw one random
feature from the current random state, optimize its threshold, and keep the
better of it and the accumulator (first candidate wins ties). -/
def optimizeFeatureStep (features : List SCRFRandomSample)
    (labels : List (List ℚ)) (images : List RGBImage) (indices : List Nat)
    (param : BTRFTreeParameter)
    (acc : Option (ℚ × RandomSplitParameter × List Nat × List Nat) × Nat)
    (_k : Nat) :
    Option (ℚ × RandomSplitParameter × List Nat × List Nat) × Nat :=
  (match optimizeThreshold features labels images indices param
      (generateRandomFeature acc.2).1, acc.1 with
   | none, b => b
   | some c, none => some c
   | some c, some b => if c.1 < b.1 then some c else some b,
   (generateRandomFeature acc.2).2)

/-- Modelled from the spec (missing `BTRFTree::optimizeRandomFeature` body,
header lines 120-127): generate `candidateFeatureNum` random features, optimize
each over candidate thresholds, and return "the globally best (feature,
threshold) across all candidates, with its resulting partitions", the first
candidate achieving the minimum winning; `none` when no candidate yields a
valid split (spec section 4.2). -/
def optimizeRandomFeature (features : List SCRFRandomSample)
    (labels : List (List ℚ)) (images : List RGBImage) (indices : List Nat)
    (param : BTRFTreeParameter) (rnd : Nat) :
    Option (ℚ × RandomSplitParameter × List Nat × List Nat) × Nat :=
  (List.range param.candidateFeatureNum).foldl
    (optimizeFeatureStep features labels images indices param)
    (none, rnd)

/-! ### Tree building (`buildTreeImpl`, `buildTree`, `hashLeafNode`) -/
/-- Modelled from the spec (missing `BTRFTree::setLeafNode` body, header lines
139-142): terminate a branch as a leaf holding the mean label (predicted 3D
location), the mean local patch descriptor, and the training sample indices
that reached it; the leaf index is a placeholder until `hashLeafNode`
(spec section 4.4). -/
def setLeafNode (features : List SCRFRandomSample) (labels : List (List ℚ))
    (indices : List Nat) : BTRFTreeNode :=
  .leaf 0 (meanLabel labels indices) (meanDescriptor features indices) indices

/-- Modelled from the spec (missing `BTRFTree::buildTreeImpl` body, header
lines 110-114): recursive tree construction.  The remaining-depth budget
`fuel` equals `maxTreeDepth - depth`, so `fuel = 0` is exactly the stopping
predicate `depth ≥ maxDepth`; the other stopping predicates are "sample count
≤ minLeafSamples", "all labels are effectively identical (no variance to
reduce)" and "SplitOptimizer reports no valid split"; otherwise an internal
node is created from the winning split and the build recurses into the two
partitions at depth+1 (spec section 4.3).  Returns the subtree and the
advanced random state. -/
def buildTreeImpl (features : List SCRFRandomSample) (labels : List (List ℚ))
    (images : List RGBImage) (param : BTRFTreeParameter) :
    Nat → List Nat → Nat → Nat → BTRFTreeNode × Nat
  | 0, indices, _, rnd => (setLeafNode features labels indices, rnd)
  | fuel + 1, indices, depth, rnd =>
      if indices.length ≤ param.minLeafNode ∨ labelVariance labels indices = 0
      then
        (setLeafNode features labels indices, rnd)
      else
        match optimizeRandomFeature features labels images indices param rnd
        with
        | (none, rnd1) => (setLeafNode features labels indices, rnd1)
        | (some (_, sp, li, ri), rnd1) =>
            let pl := buildTreeImpl features labels images param fuel li
              (depth + 1) rnd1
            let pr := buildTreeImpl features labels images param fuel ri
              (depth + 1) pl.2
            (.internal depth sp pl.1 pr.1, pr.2)

/-- The tree state of the header (lines 61-68): root, parameters, leaf count
`leaf_node_num_`, flat leaf array `leaf_nodes_` and random generator state. -/
structure BTRFTree where
  root : Option BTRFTreeNode
  treeParam : BTRFTreeParameter
  leafNodeNum : Nat
  leafNodes : List BTRFTreeNode
  rndGenerator : Nat
deriving DecidableEq

/-- Default tree parameter of a freshly constructed tree. -/
def defaultTreeParameter : BTRFTreeParameter := ⟨15, 1, 5, 5⟩

/-- A freshly constructed, un-built tree (`BTRFTree()`): no root, no leaves. -/
def BTRFTree.init (seed : Nat) : BTRFTree :=
  ⟨none, defaultTreeParameter, 0, [], seed⟩

/-- Modelled from the spec (missing `BTRFTree::hashLeafNode` body, header line
145): after the tree is built, traverse it once to assign each leaf a unique
sequential index starting at 0 and populate the flat array `leaf_nodes_` and
the count `leaf_node_num_` (spec section 4.5). -/
def hashLeafNode (t : BTRFTree) : BTRFTree :=
  match t.root with
  | none => { t with leafNodeNum := 0, leafNodes := [] }
  | some r =>
      { t with
        root := some (recordLeafNodes r 0).1,
        leafNodes := (recordLeafNodes r 0).2.1,
        leafNodeNum := (recordLeafNodes r 0).2.2 }

/-- Modelled from the spec (missing `BTRFTree::buildTree` body, header lines
80-84): "Returns failure for the whole build if input sizes are inconsistent
(features/labels/indices length mismatch) or if the index set is empty",
leaving the tree in its previous state; otherwise builds the tree recursively
and materializes the leaf index (spec sections 4.3, 4.5, 6, 7). -/
def buildTree (t : BTRFTree) (features : List SCRFRandomSample)
    (labels : List (List ℚ)) (indices : List Nat) (images : List RGBImage)
    (param : BTRFTreeParameter) : Bool × BTRFTree :=
  if features.length ≠ labels.length ∨ features.length < indices.length ∨
      indices = [] then
    (false, t)
  else
    (true, hashLeafNode
      { t with
        root := some (buildTreeImpl features labels images param
          param.maxTreeDepth indices 0 t.rndGenerator).1,
        treeParam := param,
        rndGenerator := (buildTreeImpl features labels images param
          param.maxTreeDepth indices 0 t.rndGenerator).2 })

/-! ### Backtracking search (`predict`, `searchLevel`) -/
/-- A `SearchBranch` (flann `BranchStruct`): "an unexplored subtree reference
paired with a lower-bound distance estimate; used only transiently during
prediction" (spec section 3). -/
abbrev SearchBranch := ℚ × BTRFTreeNode

/-- Insert a branch into the priority heap, kept as a list sorted by
ascending key; insertion after existing equal keys. -/
def heapInsert (b : SearchBranch) : List SearchBranch → List SearchBranch
  | [] => [b]
  | c :: rest => if b.1 < c.1 then b :: c :: rest else c :: heapInsert b rest

/-- Insert a list of branches into the priority heap. -/
def heapInsertAll (bs : List SearchBranch) (h : List SearchBranch) :
    List SearchBranch :=
  bs.foldl (fun acc b => heapInsert b acc) h

/-- Modelled from the spec (missing `BTRFTree::searchLevel` body, header lines
160-167, descent part): "descend from the root: at each Internal node,
evaluate the node's SplitParameter against the query to choose the near child
to follow directly; push the far child onto a priority heap keyed by an
admissible lower-bound distance to it" (spec section 4.6, step 1); the bound is
the squared response-to-threshold margin.  Returns the leaf reached and the
pushed far branches. -/
def descendCollect (query : SCRFRandomSample) (img : RGBImage) :
    BTRFTreeNode → BTRFTreeNode × List SearchBranch
  | .leaf i lb de sa => (.leaf i lb de sa, [])
  | .internal _ split l r =>
      if computeRandomFeature img query split < split.threshold then
        ((descendCollect query img l).1,
         ((computeRandomFeature img query split - split.threshold) ^ 2, r)
           :: (descendCollect query img l).2)
      else
        ((descendCollect query img r).1,
         ((computeRandomFeature img query split - split.threshold) ^ 2, l)
           :: (descendCollect query img r).2)

/-- The call-local state of the backtracking search: pending branch heap,
checked-leaf counter and best-result tracker (spec sections 4.6 and 5). -/
structure SearchState where
  heap : List SearchBranch
  checkCount : Nat
  bestLeaf : BTRFTreeNode
  bestDist : ℚ

/-- Modelled from the spec (missing `BTRFTree::searchLevel` body): the
backtracking loop — "repeat: pop the most promising pending branch from the
heap, descend it the same way, until either the heap is empty or the
checked-leaf counter reaches `maxCheck`"; each descent reaches one leaf, whose
descriptor distance updates the best-result tracker if improved (spec section
4.6, steps 2-3).  `fuel` is a structural-recursion bound; every call supplies
at least the number of leaves still reachable from the heap, which the loop
never exceeds. -/
def searchLoop (query : SCRFRandomSample) (img : RGBImage) (maxCheck : Nat) :
    Nat → SearchState → SearchState
  | 0, s => s
  | fuel + 1, s =>
      match s.heap with
      | [] => s
      | b :: rest =>
          if maxCheck ≤ s.checkCount then s
          else
            searchLoop query img maxCheck fuel
              { heap := heapInsertAll (descendCollect query img b.2).2 rest,
                checkCount := s.checkCount + 1,
                bestLeaf :=
                  if sqDist query.descriptor
                      (descriptorOf (descendCollect query img b.2).1) <
                      s.bestDist then
                    (descendCollect query img b.2).1
                  else s.bestLeaf,
                bestDist :=
                  if sqDist query.descriptor
                      (descriptorOf (descendCollect query img b.2).1) <
                      s.bestDist then
                    sqDist query.descriptor
                      (descriptorOf (descendCollect query img b.2).1)
                  else s.bestDist }

/-- Modelled from the spec (missing `BTRFTree::predict` body, header lines
92-96): returns `none` ("fails") "if the tree has no leaves (not built) or
`maxCheck < 1`"; otherwise descends from the root, then backtracks through the
priority heap within the `maxCheck` budget, and returns the best leaf's
predicted 3D location together with its local patch descriptor distance
(spec sections 4.6 and 6). -/
def predict (t : BTRFTree) (feature : SCRFRandomSample) (img : RGBImage)
    (maxCheck : Int) : Option (List ℚ × ℚ) :=
  match t.root with
  | none => none
  | some r =>
      if t.leafNodeNum = 0 ∨ maxCheck < 1 then none
      else
        some
          ((searchLoop feature img maxCheck.toNat (leafCount r)
              { heap := heapInsertAll (descendCollect feature img r).2 [],
                checkCount := 1,
                bestLeaf := (descendCollect feature img r).1,
                bestDist := sqDist feature.descriptor
                  (descriptorOf (descendCollect feature img r).1) }).bestLeaf
            |> fun lf => (labelOf lf, sqDist feature.descriptor
              (descriptorOf lf)))

/-! ### Leaf descriptor persistence -/
/-- Modelled from the spec (missing `BTRFTree::getLeafNodeDescriptor` body,
header line 101): "serializes all leaf descriptors into a LeafDescriptorMatrix
ordered by leaf index" — one row per leaf, row index = leaf index
(spec section 4.5). -/
def getLeafNodeDescriptor (t : BTRFTree) : List (List ℚ) :=
  t.leafNodes.map descriptorOf

/-- Overwrite the descriptor of every leaf of a subtree with the matrix row
addressed by that leaf's stored leaf index. -/
def setDescriptorsNode (data : List (List ℚ)) :
    BTRFTreeNode → BTRFTreeNode
  | .internal d s l r =>
      .internal d s (setDescriptorsNode data l) (setDescriptorsNode data r)
  | .leaf i lb de sa => .leaf i lb (data.getD i de) sa

/-- Modelled from the spec (missing `BTRFTree::setLeafNodeDescriptor` body,
header line 102): "overwrites existing leaves' descriptors from such a matrix
(row count must equal current leaf count — mismatch is an error, not silently
ignored/truncated)" (spec section 4.5); on mismatch the tree is untouched. -/
def setLeafNodeDescriptor (t : BTRFTree) (data : List (List ℚ)) :
    Bool × BTRFTree :=
  if data.length ≠ t.leafNodeNum then (false, t)
  else
    (true,
      { t with
        root := t.root.map (setDescriptorsNode data),
        leafNodes := t.leafNodes.map (setDescriptorsNode data) })

/-! ### Sample routing and well-formedness -/
/-- Route a training sample from a node to a leaf by evaluating each internal
node's split feature on the sample's own responses: left if response <
threshold, right otherwise (spec section 8). -/
def routeSample (features : List SCRFRandomSample) (images : List RGBImage)
    (i : Nat) : BTRFTreeNode → BTRFTreeNode
  | .internal _ split l r =>
      if splitGoesLeft features images split i then
        routeSample features images i l
      else
        routeSample features images i r
  | .leaf a b c d => .leaf a b c d

/-- A built tree's materialized state: the root is present, its leaf indices
are exactly the ones a fresh depth-first traversal would assign, and
`leaf_nodes_` / `leaf_node_num_` agree with that traversal (spec section
4.5).  Decidably checkable. -/
def treeWF (t : BTRFTree) : Bool :=
  match t.root with
  | none => false
  | some r =>
      decide ((recordLeafNodes r 0).1 = r) &&
        decide (t.leafNodes = (recordLeafNodes r 0).2.1) &&
        decide (t.leafNodeNum = (recordLeafNodes r 0).2.2)

/-- The spec's "exhaustive linear comparison of the query descriptor against
all leaves" (spec section 8): scan the flat leaf array in index order, keeping
the first leaf achieving the minimum descriptor distance; returns that leaf's
label and distance. -/
def linearFoldStep (q : SCRFRandomSample) (best : List ℚ × ℚ)
    (lf2 : BTRFTreeNode) : List ℚ × ℚ :=
  if sqDist q.descriptor (descriptorOf lf2) < best.2 then
    (labelOf lf2, sqDist q.descriptor (descriptorOf lf2))
  else best

/-- Keep-first-minimum linear scan over a leaf list, starting from the first
leaf; the comparison step is `linearFoldStep`. -/
def linearBestLeaf (q : SCRFRandomSample) :
    List BTRFTreeNode → Option (List ℚ × ℚ)
  | [] => none
  | lf :: rest =>
      some (rest.foldl (linearFoldStep q)
        (labelOf lf, sqDist q.descriptor (descriptorOf lf)))

/-- All leaves reachable from the pending branches of a heap. -/
def heapLeaves : List SearchBranch → List BTRFTreeNode
  | [] => []
  | b :: rest => collectLeaves b.2 ++ heapLeaves rest

/-! ### Search loop lemmas -/
/-- Descriptor distance of a query to a leaf. -/
def leafDist (q : SCRFRandomSample) (lf : BTRFTreeNode) : ℚ :=
  sqDist q.descriptor (descriptorOf lf)

/-! ### Concrete example objects for witnesses and counterexamples -/
/-- A 3x3 test image whose channel value at `(x, y)` is the column `x`. -/
def exImage : RGBImage := ⟨3, 3, fun x _ _ => (x : ℚ)⟩

/-- A zero-offset split with threshold 0. -/
def exSplit : RandomSplitParameter := ⟨0, 0, 0, 0, 0, 0⟩

/-- A hand-materialized two-leaf tree whose two leaf descriptors are
equidistant from `exQuery`. -/
def exTree2 : BTRFTree :=
  ⟨some (.internal 0 exSplit
      (.leaf 0 [0, 0, 0] [-1] [0]) (.leaf 1 [1, 1, 1] [1] [1])),
   defaultTreeParameter, 2,
   [.leaf 0 [0, 0, 0] [-1] [0], .leaf 1 [1, 1, 1] [1] [1]], 0⟩

/-- A test query: anchor pixel (2,1), descriptor `[0]`. -/
def exQuery : SCRFRandomSample := ⟨2, 1, 1, 0, [0]⟩

/-- A one-sample training set. -/
def exFeatures : List SCRFRandomSample := [⟨1, 1, 1, 0, [0]⟩]

/-- The matching one-sample label set. -/
def exLabels : List (List ℚ) := [[2, 3, 4]]

/-- A tree parameter with no split candidates: the build terminates at once
with a single leaf. -/
def exParam : BTRFTreeParameter := ⟨1, 1, 0, 0⟩

/-- The tree obtained by one successful `buildTree` on the one-sample set. -/
def exBuiltTree : BTRFTree :=
  (buildTree (BTRFTree.init 0) exFeatures exLabels [0] [exImage] exParam).2

/-! ### Theorems -/

theorem collectLeaves_length (n : BTRFTreeNode) :
    (collectLeaves n).length = leafCount n := by
  induction n with
  | internal d s l r ihl ihr => simp [collectLeaves, leafCount, ihl, ihr]
  | leaf i lb d s => simp [collectLeaves, leafCount]

theorem recordLeafNodes_next (n : BTRFTreeNode) (k : Nat) :
    (recordLeafNodes n k).2.2 = k + leafCount n := by
  induction n generalizing k with
  | internal d s l r ihl ihr =>
      simp [recordLeafNodes, leafCount, ihl, ihr]; omega
  | leaf i lb d s => simp [recordLeafNodes, leafCount]

theorem recordLeafNodes_length (n : BTRFTreeNode) (k : Nat) :
    (recordLeafNodes n k).2.1.length = leafCount n := by
  induction n generalizing k with
  | internal d s l r ihl ihr =>
      simp [recordLeafNodes, leafCount, ihl, ihr]
  | leaf i lb d s => simp [recordLeafNodes, leafCount]

theorem recordLeafNodes_getD (n : BTRFTreeNode) (k : Nat) (j : Nat)
    (hj : j < (recordLeafNodes n k).2.1.length) :
    leafIndexOf ((recordLeafNodes n k).2.1.getD j defaultNode) = k + j := by
  induction n generalizing k j with
  | internal d s l r ihl ihr =>
      simp only [recordLeafNodes] at hj ⊢
      rcases lt_or_ge j (recordLeafNodes l k).2.1.length with hcase | hcase
      · rw [List.getD_append _ _ _ _ hcase]
        exact ihl k j hcase
      · have hjr : j - (recordLeafNodes l k).2.1.length <
            (recordLeafNodes r ((recordLeafNodes l k).2.2)).2.1.length := by
          simp only [List.length_append] at hj
          omega
        rw [List.getD_append_right _ _ _ _ hcase]
        have h2 := ihr ((recordLeafNodes l k).2.2)
          (j - (recordLeafNodes l k).2.1.length) hjr
        rw [h2, recordLeafNodes_next l k, recordLeafNodes_length l k] at *
        omega
  | leaf i lb d s =>
      obtain rfl : j = 0 := by
        simpa [recordLeafNodes] using hj
      simp [recordLeafNodes, leafIndexOf, defaultNode]

/-! ### Heap and descent lemmas -/
theorem leafCount_pos (n : BTRFTreeNode) : 0 < leafCount n := by
  induction n with
  | internal d s l r ihl ihr => simp only [leafCount]; omega
  | leaf i lb d s => simp [leafCount]

theorem heapInsert_perm (b : SearchBranch) (h : List SearchBranch) :
    (heapInsert b h).Perm (b :: h) := by
  induction h with
  | nil => simp [heapInsert]
  | cons c rest ih =>
      simp only [heapInsert]
      split
      · exact List.Perm.refl _
      · exact (ih.cons c).trans (List.Perm.swap b c rest)

theorem heapInsertAll_perm (bs h : List SearchBranch) :
    (heapInsertAll bs h).Perm (bs ++ h) := by
  induction bs generalizing h with
  | nil => simp [heapInsertAll]
  | cons b bs ih =>
      have h1 : heapInsertAll (b :: bs) h = heapInsertAll bs (heapInsert b h) := by
        simp [heapInsertAll]
      rw [h1]
      refine (ih (heapInsert b h)).trans ?_
      refine (List.Perm.append_left bs (heapInsert_perm b h)).trans ?_
      exact List.perm_middle

theorem heapLeaves_perm {h1 h2 : List SearchBranch} (hp : h1.Perm h2) :
    (heapLeaves h1).Perm (heapLeaves h2) := by
  induction hp with
  | nil => exact List.Perm.refl _
  | cons x _ ih => exact List.Perm.append_left _ ih
  | swap x y l =>
      simp only [heapLeaves, ← List.append_assoc]
      exact List.Perm.append_right _ (List.perm_append_comm)
  | trans _ _ ih1 ih2 => exact ih1.trans ih2

theorem mem_heapLeaves {lf : BTRFTreeNode} {h : List SearchBranch} :
    lf ∈ heapLeaves h ↔ ∃ b ∈ h, lf ∈ collectLeaves b.2 := by
  induction h with
  | nil => simp [heapLeaves]
  | cons b rest ih =>
      simp only [heapLeaves, List.mem_append, ih, List.mem_cons]
      constructor
      · rintro (hb | ⟨b', hb', hlf⟩)
        · exact ⟨b, Or.inl rfl, hb⟩
        · exact ⟨b', Or.inr hb', hlf⟩
      · rintro ⟨b', hb' | hb', hlf⟩
        · exact Or.inl (hb' ▸ hlf)
        · exact Or.inr ⟨b', hb', hlf⟩

theorem descendCollect_perm (q : SCRFRandomSample) (img : RGBImage)
    (n : BTRFTreeNode) :
    (collectLeaves n).Perm
      ((descendCollect q img n).1 ::
        heapLeaves (descendCollect q img n).2) := by
  induction n with
  | leaf i lb de sa => simp [descendCollect, heapLeaves, collectLeaves]
  | internal d s l r ihl ihr =>
      simp only [descendCollect, collectLeaves]
      split
      · refine (List.Perm.append_right (collectLeaves r) ihl).trans ?_
        simp only [heapLeaves, List.cons_append]
        exact (List.Perm.cons _ List.perm_append_comm)
      · refine (List.Perm.append_left (collectLeaves l) ihr).trans ?_
        simp only [heapLeaves]
        exact List.perm_middle

theorem descendCollect_fst_mem (q : SCRFRandomSample) (img : RGBImage)
    (n : BTRFTreeNode) : (descendCollect q img n).1 ∈ collectLeaves n :=
  (descendCollect_perm q img n).mem_iff.mpr (List.mem_cons_self _ _)

theorem descendCollect_branch_sub {q : SCRFRandomSample} {img : RGBImage}
    {n lf : BTRFTreeNode}
    (h : lf ∈ heapLeaves (descendCollect q img n).2) :
    lf ∈ collectLeaves n :=
  (descendCollect_perm q img n).mem_iff.mpr (List.mem_cons_of_mem _ h)

theorem descendCollect_leafCount (q : SCRFRandomSample) (img : RGBImage)
    (n : BTRFTreeNode) :
    leafCount n = (heapLeaves (descendCollect q img n).2).length + 1 := by
  have h := (descendCollect_perm q img n).length_eq
  rw [collectLeaves_length] at h
  simpa using h

theorem ite_lt_le_right (a b : ℚ) : (if a < b then a else b) ≤ b := by
  split
  · exact le_of_lt (by assumption)
  · exact le_refl _

theorem ite_lt_le_left (a b : ℚ) : (if a < b then a else b) ≤ a := by
  split
  · exact le_refl _
  · exact le_of_not_lt (by assumption)

theorem heapLeaves_append (h1 h2 : List SearchBranch) :
    heapLeaves (h1 ++ h2) = heapLeaves h1 ++ heapLeaves h2 := by
  induction h1 with
  | nil => simp [heapLeaves]
  | cons b rest ih => simp [heapLeaves, ih]

theorem searchLoop_le_best (q : SCRFRandomSample) (img : RGBImage)
    (mc fuel : Nat) (s : SearchState) :
    (searchLoop q img mc fuel s).bestDist ≤ s.bestDist := by
  induction fuel generalizing s with
  | zero => simp [searchLoop]
  | succ fuel ih =>
      cases hh : s.heap with
      | nil => simp [searchLoop, hh]
      | cons b rest =>
          simp only [searchLoop, hh]
          split
          · exact le_refl _
          · exact le_trans (ih _) (ite_lt_le_right _ _)

theorem searchLoop_mono (q : SCRFRandomSample) (img : RGBImage)
    {mc1 mc2 : Nat} (hm : mc1 ≤ mc2) (fuel : Nat) (s : SearchState) :
    (searchLoop q img mc2 fuel s).bestDist ≤
      (searchLoop q img mc1 fuel s).bestDist := by
  induction fuel generalizing s with
  | zero => simp [searchLoop]
  | succ fuel ih =>
      cases hh : s.heap with
      | nil => simp [searchLoop, hh]
      | cons b rest =>
          simp only [searchLoop, hh]
          by_cases h1 : mc1 ≤ s.checkCount
          · rw [if_pos h1]
            by_cases h2 : mc2 ≤ s.checkCount
            · rw [if_pos h2]
            · rw [if_neg h2]
              exact le_trans (searchLoop_le_best q img mc2 fuel _)
                (ite_lt_le_right _ _)
          · rw [if_neg h1, if_neg (show ¬mc2 ≤ s.checkCount by omega)]
            exact ih _

theorem searchLoop_bestDist_eq (q : SCRFRandomSample) (img : RGBImage)
    (mc fuel : Nat) (s : SearchState)
    (h : s.bestDist = leafDist q s.bestLeaf) :
    (searchLoop q img mc fuel s).bestDist =
      leafDist q (searchLoop q img mc fuel s).bestLeaf := by
  induction fuel generalizing s with
  | zero => simpa [searchLoop] using h
  | succ fuel ih =>
      cases hh : s.heap with
      | nil => simpa [searchLoop, hh] using h
      | cons b rest =>
          simp only [searchLoop, hh]
          split
          · exact h
          · refine ih _ ?_
            simp only [h, leafDist]
            by_cases hc : sqDist q.descriptor
                (descriptorOf (descendCollect q img b.2).1) <
                  sqDist q.descriptor (descriptorOf s.bestLeaf)
            · simp [hc]
            · simp [hc]

theorem searchLoop_best_mem (q : SCRFRandomSample) (img : RGBImage)
    (mc fuel : Nat) (s : SearchState) (r : BTRFTreeNode)
    (hb : s.bestLeaf ∈ collectLeaves r)
    (hh : ∀ lf ∈ heapLeaves s.heap, lf ∈ collectLeaves r) :
    (searchLoop q img mc fuel s).bestLeaf ∈ collectLeaves r := by
  induction fuel generalizing s with
  | zero => simpa [searchLoop] using hb
  | succ fuel ih =>
      cases hhp : s.heap with
      | nil => simpa [searchLoop, hhp] using hb
      | cons b rest =>
          simp only [searchLoop, hhp]
          split
          · exact hb
          · refine ih _ ?_ ?_
            · by_cases hc : sqDist q.descriptor
                  (descriptorOf (descendCollect q img b.2).1) < s.bestDist
              · simp only [hc, if_pos]
                refine hh _ ?_
                rw [hhp]
                exact List.mem_append_left _
                  (descendCollect_fst_mem q img b.2)
              · simpa [hc] using hb
            · intro lf hlf
              have hmem : lf ∈ heapLeaves ((descendCollect q img b.2).2 ++
                  rest) :=
                (heapLeaves_perm
                  (heapInsertAll_perm (descendCollect q img b.2).2
                    rest)).mem_iff.mp hlf
              rw [heapLeaves_append] at hmem
              rcases List.mem_append.mp hmem with hbr | hrest
              · refine hh _ ?_
                rw [hhp]
                exact List.mem_append_left _
                  (descendCollect_branch_sub hbr)
              · refine hh _ ?_
                rw [hhp]
                exact List.mem_append_right _ hrest

theorem searchLoop_exhaust (q : SCRFRandomSample) (img : RGBImage)
    (mc fuel : Nat) (s : SearchState)
    (hfuel : (heapLeaves s.heap).length ≤ fuel)
    (hmc : s.checkCount + (heapLeaves s.heap).length ≤ mc) :
    ∀ lf ∈ heapLeaves s.heap,
      (searchLoop q img mc fuel s).bestDist ≤ leafDist q lf := by
  induction fuel generalizing s with
  | zero =>
      intro lf hlf
      have hnil : heapLeaves s.heap = [] :=
        List.length_eq_zero.mp (by omega)
      rw [hnil] at hlf
      simp at hlf
  | succ fuel ih =>
      cases hhp : s.heap with
      | nil =>
          intro lf hlf
          simp [heapLeaves] at hlf
      | cons b rest =>
          intro lf hlf
          have hlf2 : lf ∈ collectLeaves b.2 ++ heapLeaves rest := by
            simpa [heapLeaves] using hlf
          have hl1 : heapLeaves s.heap =
              collectLeaves b.2 ++ heapLeaves rest := by
            rw [hhp]; rfl
          have hpos : 0 < (collectLeaves b.2).length := by
            rw [collectLeaves_length]
            exact leafCount_pos b.2
          rw [hl1, List.length_append] at hmc hfuel
          have hbudget : ¬mc ≤ s.checkCount := by omega
          simp only [searchLoop, hhp, if_neg hbudget]
          have hsplit : (collectLeaves b.2).length =
              (heapLeaves (descendCollect q img b.2).2).length + 1 := by
            rw [collectLeaves_length]
            exact descendCollect_leafCount q img b.2
          have hnewlen : (heapLeaves (heapInsertAll
              (descendCollect q img b.2).2 rest)).length =
              (heapLeaves (descendCollect q img b.2).2).length +
                (heapLeaves rest).length := by
            rw [(heapLeaves_perm (heapInsertAll_perm _ _)).length_eq,
              heapLeaves_append, List.length_append]
          have hmem_new : ∀ x, x ∈ heapLeaves (descendCollect q img b.2).2 ∨
              x ∈ heapLeaves rest →
              x ∈ heapLeaves (heapInsertAll (descendCollect q img b.2).2
                rest) := by
            intro x hx
            refine (heapLeaves_perm (heapInsertAll_perm _ _)).mem_iff.mpr ?_
            rw [heapLeaves_append]
            exact List.mem_append.mpr hx
          have hih := ih (SearchState.mk
            (heapInsertAll (descendCollect q img b.2).2 rest)
            (s.checkCount + 1)
            (if sqDist q.descriptor
                (descriptorOf (descendCollect q img b.2).1) < s.bestDist then
              (descendCollect q img b.2).1
            else s.bestLeaf)
            (if sqDist q.descriptor
                (descriptorOf (descendCollect q img b.2).1) < s.bestDist then
              sqDist q.descriptor (descriptorOf (descendCollect q img b.2).1)
            else s.bestDist))
            (by simpa [hnewlen] using (by omega : (heapLeaves
              (descendCollect q img b.2).2).length +
                (heapLeaves rest).length ≤ fuel))
            (by simpa [hnewlen] using (by omega : s.checkCount + 1 +
              ((heapLeaves (descendCollect q img b.2).2).length +
                (heapLeaves rest).length) ≤ mc))
          rcases List.mem_append.mp hlf2 with hcl | hrest
          · rcases List.mem_cons.mp
                ((descendCollect_perm q img b.2).mem_iff.mp hcl) with
              hfst | hbr
            · rw [hfst]
              refine le_trans (searchLoop_le_best q img mc fuel _) ?_
              exact ite_lt_le_left _ _
            · exact hih lf (hmem_new lf (Or.inl hbr))
          · exact hih lf (hmem_new lf (Or.inr hrest))

/-! ### Well-formedness of built trees -/
theorem collectLeaves_recordLeafNodes (n : BTRFTreeNode) (k : Nat) :
    collectLeaves (recordLeafNodes n k).1 = (recordLeafNodes n k).2.1 := by
  induction n generalizing k with
  | internal d s l r ihl ihr =>
      simp only [recordLeafNodes, collectLeaves]
      rw [ihl k, ihr ((recordLeafNodes l k).2.2)]
  | leaf i lb de sa => simp [recordLeafNodes, collectLeaves]

theorem recordLeafNodes_idem (n : BTRFTreeNode) (k : Nat) :
    recordLeafNodes (recordLeafNodes n k).1 k = recordLeafNodes n k := by
  induction n generalizing k with
  | internal d s l r ihl ihr =>
      simp only [recordLeafNodes]
      rw [ihl k]
      rw [ihr ((recordLeafNodes l k).2.2)]
  | leaf i lb de sa => simp [recordLeafNodes]

theorem rln_mem_leaf {n : BTRFTreeNode} {k : Nat} {lf : BTRFTreeNode}
    (h : lf ∈ (recordLeafNodes n k).2.1) :
    ∃ a lb de sa, lf = .leaf a lb de sa := by
  induction n generalizing k with
  | internal d s l r ihl ihr =>
      simp only [recordLeafNodes, List.mem_append] at h
      rcases h with h | h
      · exact ihl h
      · exact ihr h
  | leaf i lb de sa =>
      simp only [recordLeafNodes, List.mem_singleton] at h
      exact ⟨k, lb, de, sa, h⟩

theorem buildTree_success_eq (t : BTRFTree) (features : List SCRFRandomSample)
    (labels : List (List ℚ)) (indices : List Nat) (images : List RGBImage)
    (param : BTRFTreeParameter)
    (h : (buildTree t features labels indices images param).1 = true) :
    (buildTree t features labels indices images param).2 =
      hashLeafNode
        { t with
          root := some (buildTreeImpl features labels images param
            param.maxTreeDepth indices 0 t.rndGenerator).1,
          treeParam := param,
          rndGenerator := (buildTreeImpl features labels images param
            param.maxTreeDepth indices 0 t.rndGenerator).2 } := by
  by_cases hc : features.length ≠ labels.length ∨
      features.length < indices.length ∨ indices = []
  · rw [buildTree, if_pos hc] at h
    simp at h
  · rw [buildTree, if_neg hc]

theorem hashLeafNode_wf (t : BTRFTree) (n : BTRFTreeNode)
    (h : t.root = some n) : treeWF (hashLeafNode t) = true := by
  simp only [hashLeafNode, h, treeWF]
  rw [recordLeafNodes_idem n 0]
  simp

theorem buildTree_wf (t : BTRFTree) (features : List SCRFRandomSample)
    (labels : List (List ℚ)) (indices : List Nat) (images : List RGBImage)
    (param : BTRFTreeParameter)
    (h : (buildTree t features labels indices images param).1 = true) :
    treeWF (buildTree t features labels indices images param).2 = true := by
  rw [buildTree_success_eq t features labels indices images param h]
  exact hashLeafNode_wf _ _ rfl

theorem treeWF_elim (t : BTRFTree) (htw : treeWF t = true) :
    ∃ r, t.root = some r ∧ (recordLeafNodes r 0).1 = r ∧
      t.leafNodes = (recordLeafNodes r 0).2.1 ∧
      t.leafNodes = collectLeaves r ∧
      t.leafNodeNum = leafCount r := by
  cases hr : t.root with
  | none => rw [treeWF, hr] at htw; simp at htw
  | some r =>
      rw [treeWF, hr] at htw
      simp only [Bool.and_eq_true, decide_eq_true_eq] at htw
      obtain ⟨⟨h1, h2⟩, h3⟩ := htw
      refine ⟨r, rfl, h1, h2, ?_, ?_⟩
      · rw [h2]
        conv_rhs => rw [← h1]
        exact (collectLeaves_recordLeafNodes r 0).symm
      · rw [h3, recordLeafNodes_next]
        simp

/-! ### Linear scan lemmas -/
theorem linearFold_le_init (q : SCRFRandomSample) (L : List BTRFTreeNode)
    (b : List ℚ × ℚ) : (L.foldl (linearFoldStep q) b).2 ≤ b.2 := by
  induction L generalizing b with
  | nil => simp
  | cons lf2 rest ih =>
      refine le_trans (ih (linearFoldStep q b lf2)) ?_
      unfold linearFoldStep
      split
      · exact le_of_lt (by assumption)
      · exact le_refl _

theorem linearFold_le_all (q : SCRFRandomSample) (L : List BTRFTreeNode)
    (b : List ℚ × ℚ) :
    ∀ lf ∈ L, (L.foldl (linearFoldStep q) b).2 ≤ leafDist q lf := by
  induction L generalizing b with
  | nil => intro lf hlf; simp at hlf
  | cons lf2 rest ih =>
      intro lf hlf
      rcases List.mem_cons.mp hlf with rfl | hrest
      · refine le_trans (linearFold_le_init q rest _) ?_
        unfold linearFoldStep
        split
        · exact le_refl _
        · exact le_of_not_lt (by assumption)
      · exact ih (linearFoldStep q b lf2) lf hrest

theorem linearFold_attained (q : SCRFRandomSample) (L : List BTRFTreeNode)
    (b : List ℚ × ℚ) :
    L.foldl (linearFoldStep q) b = b ∨
      ∃ lf ∈ L, L.foldl (linearFoldStep q) b = (labelOf lf, leafDist q lf) := by
  induction L generalizing b with
  | nil => exact Or.inl rfl
  | cons lf2 rest ih =>
      rcases ih (linearFoldStep q b lf2) with heq | ⟨lf, hlf, heq⟩
      · rw [List.foldl_cons, heq]
        unfold linearFoldStep
        split
        · exact Or.inr ⟨lf2, List.mem_cons_self _ _, rfl⟩
        · exact Or.inl rfl
      · exact Or.inr ⟨lf, List.mem_cons_of_mem _ hlf,
          by rw [List.foldl_cons]; exact heq⟩

theorem linearBestLeaf_spec (q : SCRFRandomSample) (L : List BTRFTreeNode)
    (hne : L ≠ []) :
    ∃ p, linearBestLeaf q L = some p ∧
      (∃ lf ∈ L, p = (labelOf lf, leafDist q lf)) ∧
      ∀ lf ∈ L, p.2 ≤ leafDist q lf := by
  cases L with
  | nil => exact absurd rfl hne
  | cons lf rest =>
      refine ⟨rest.foldl (linearFoldStep q)
        (labelOf lf, sqDist q.descriptor (descriptorOf lf)), rfl, ?_, ?_⟩
      · rcases linearFold_attained q rest
            (labelOf lf, sqDist q.descriptor (descriptorOf lf)) with
          heq | ⟨lf2, hlf2, heq⟩
        · exact ⟨lf, List.mem_cons_self _ _, heq⟩
        · exact ⟨lf2, List.mem_cons_of_mem _ hlf2, heq⟩
      · intro lf2 hlf2
        rcases List.mem_cons.mp hlf2 with rfl | hrest
        · exact linearFold_le_init q rest _
        · exact linearFold_le_all q rest _ lf2 hrest

/-! ### Predict characterization -/
theorem predict_attains (t : BTRFTree) (r : BTRFTreeNode)
    (hr : t.root = some r) (hnum : t.leafNodeNum ≠ 0)
    (q : SCRFRandomSample) (img : RGBImage) (m : Int) (hm : 1 ≤ m) :
    ∃ lf, lf ∈ collectLeaves r ∧
      predict t q img m = some (labelOf lf, leafDist q lf) := by
  have hcond : ¬(t.leafNodeNum = 0 ∨ m < 1) := by
    push_neg
    exact ⟨hnum, by omega⟩
  simp only [predict, hr, if_neg hcond]
  refine ⟨(searchLoop q img m.toNat (leafCount r)
    { heap := heapInsertAll (descendCollect q img r).2 [],
      checkCount := 1,
      bestLeaf := (descendCollect q img r).1,
      bestDist := sqDist q.descriptor
        (descriptorOf (descendCollect q img r).1) }).bestLeaf, ?_, rfl⟩
  refine searchLoop_best_mem q img m.toNat (leafCount r) _ r
    (descendCollect_fst_mem q img r) ?_
  intro lf hlf
  have hmem : lf ∈ heapLeaves ((descendCollect q img r).2 ++ []) :=
    (heapLeaves_perm (heapInsertAll_perm _ _)).mem_iff.mp hlf
  rw [List.append_nil] at hmem
  exact descendCollect_branch_sub hmem

theorem predict_le_all (t : BTRFTree) (r : BTRFTreeNode)
    (hr : t.root = some r) (hnum : t.leafNodeNum ≠ 0)
    (q : SCRFRandomSample) (img : RGBImage) (m : Int)
    (hm : (leafCount r : Int) ≤ m) (p : List ℚ × ℚ)
    (hp : predict t q img m = some p) :
    ∀ lf ∈ collectLeaves r, p.2 ≤ leafDist q lf := by
  have hm1 : (1 : Int) ≤ m := le_trans (by exact_mod_cast leafCount_pos r) hm
  have hcond : ¬(t.leafNodeNum = 0 ∨ m < 1) := by
    push_neg
    exact ⟨hnum, by omega⟩
  simp only [predict, hr, if_neg hcond] at hp
  have hp2 : p = ((searchLoop q img m.toNat (leafCount r)
      { heap := heapInsertAll (descendCollect q img r).2 [],
        checkCount := 1,
        bestLeaf := (descendCollect q img r).1,
        bestDist := sqDist q.descriptor
          (descriptorOf (descendCollect q img r).1) }).bestLeaf
      |> fun lf => (labelOf lf, sqDist q.descriptor (descriptorOf lf))) :=
    (Option.some.inj hp).symm
  have hdist : p.2 = (searchLoop q img m.toNat (leafCount r)
      { heap := heapInsertAll (descendCollect q img r).2 [],
        checkCount := 1,
        bestLeaf := (descendCollect q img r).1,
        bestDist := sqDist q.descriptor
          (descriptorOf (descendCollect q img r).1) }).bestDist := by
    rw [hp2]
    exact (searchLoop_bestDist_eq q img m.toNat (leafCount r) _ rfl).symm
  have hlen : (heapLeaves (heapInsertAll (descendCollect q img r).2
      [])).length = (heapLeaves (descendCollect q img r).2).length := by
    rw [(heapLeaves_perm (heapInsertAll_perm _ _)).length_eq,
      List.append_nil]
  intro lf hlf
  rcases List.mem_cons.mp
      ((descendCollect_perm q img r).mem_iff.mp hlf) with hfst | hbr
  · rw [hdist, hfst]
    exact le_trans (searchLoop_le_best q img m.toNat (leafCount r) _)
      (le_refl _)
  · rw [hdist]
    refine searchLoop_exhaust q img m.toNat (leafCount r) _ ?_ ?_ lf ?_
    · rw [hlen]
      have h1 := descendCollect_leafCount q img r
      omega
    · show 1 + (heapLeaves (heapInsertAll
        (descendCollect q img r).2 [])).length ≤ m.toNat
      rw [hlen]
      have h1 := descendCollect_leafCount q img r
      omega
    · exact (heapLeaves_perm (heapInsertAll_perm _ _)).mem_iff.mpr
        (by rw [List.append_nil]; exact hbr)

/-! ### Claim theorems -/
/-- Claim C2: for a fixed tree, query and image, the distance returned by
`predict` is monotonically non-increasing in `maxCheck`: whenever both budgets
yield a result, the larger budget's distance is no larger. -/
theorem predict_dist_monotone (t : BTRFTree) (q : SCRFRandomSample)
    (img : RGBImage) (m1 m2 : Int) (hm : m1 ≤ m2) (p1 p2 : List ℚ × ℚ)
    (h1 : predict t q img m1 = some p1)
    (h2 : predict t q img m2 = some p2) : p2.2 ≤ p1.2 := by
  cases hr : t.root with
  | none => simp [predict, hr] at h1
  | some r =>
      by_cases hc1 : t.leafNodeNum = 0 ∨ m1 < 1
      · simp only [predict, hr, if_pos hc1] at h1
        exact absurd h1 (by simp)
      · have hc2 : ¬(t.leafNodeNum = 0 ∨ m2 < 1) := by
          push_neg at hc1 ⊢
          exact ⟨hc1.1, by omega⟩
        simp only [predict, hr, if_neg hc1, Option.some_inj] at h1
        simp only [predict, hr, if_neg hc2, Option.some_inj] at h2
        have d1 : p1.2 = (searchLoop q img m1.toNat (leafCount r)
            { heap := heapInsertAll (descendCollect q img r).2 [],
              checkCount := 1,
              bestLeaf := (descendCollect q img r).1,
              bestDist := sqDist q.descriptor
                (descriptorOf (descendCollect q img r).1) }).bestDist := by
          rw [← h1]
          exact (searchLoop_bestDist_eq q img m1.toNat (leafCount r) _
            rfl).symm
        have d2 : p2.2 = (searchLoop q img m2.toNat (leafCount r)
            { heap := heapInsertAll (descendCollect q img r).2 [],
              checkCount := 1,
              bestLeaf := (descendCollect q img r).1,
              bestDist := sqDist q.descriptor
                (descriptorOf (descendCollect q img r).1) }).bestDist := by
          rw [← h2]
          exact (searchLoop_bestDist_eq q img m2.toNat (leafCount r) _
            rfl).symm
        rw [d1, d2]
        exact searchLoop_mono q img (by omega) (leafCount r) _

unseal Rat.add Rat.mul Rat.sub Rat.inv in
/-- Witness for C2 at the concrete two-leaf tree: budgets 1 and 2 both
succeed and the larger budget's distance is no larger. -/
theorem predict_dist_monotone_witness :
    predict exTree2 exQuery exImage 1 = some ([1, 1, 1], 1) ∧
    predict exTree2 exQuery exImage 2 = some ([1, 1, 1], 1) ∧
    ((([1, 1, 1] : List ℚ), (1 : ℚ)) : List ℚ × ℚ).2 ≤
      ((([1, 1, 1] : List ℚ), (1 : ℚ)) : List ℚ × ℚ).2 :=
  ⟨by decide, by decide,
    predict_dist_monotone exTree2 exQuery exImage 1 2 (by decide) _ _
      (by decide) (by decide)⟩

/-- Claim C1 (amended): with `maxCheck` at least the leaf count, `predict`
returns a leaf attaining the exact minimum descriptor distance over all
leaves, and its distance equals the distance found by the exhaustive linear
comparison of the query descriptor against every leaf; at distance ties the
returned leaf itself may differ from the linear scan's first minimizer. -/
theorem predict_exhaustive_exact_min (t : BTRFTree) (q : SCRFRandomSample)
    (img : RGBImage) (m : Int) (htw : treeWF t = true)
    (hm : (t.leafNodeNum : Int) ≤ m) :
    ∃ lf, lf ∈ t.leafNodes ∧
      predict t q img m = some (labelOf lf, leafDist q lf) ∧
      (linearBestLeaf q t.leafNodes).map Prod.snd =
        some (leafDist q lf) := by
  obtain ⟨r, hr, hidem, hlnr, hln, hnum⟩ := treeWF_elim t htw
  have hpos := leafCount_pos r
  have hnum0 : t.leafNodeNum ≠ 0 := by omega
  have hm1 : (1 : Int) ≤ m := by omega
  obtain ⟨lf, hmem, hpred⟩ := predict_attains t r hr hnum0 q img m hm1
  have hle := predict_le_all t r hr hnum0 q img m
    (by rw [← hnum]; exact hm) _ hpred
  have hne : t.leafNodes ≠ [] := by
    rw [hln]
    intro hnil
    have hl := collectLeaves_length r
    rw [hnil] at hl
    simp at hl
    omega
  obtain ⟨p, hlin, ⟨lf2, hlf2, hp⟩, hpmin⟩ := linearBestLeaf_spec q
    t.leafNodes hne
  have h1 : p.2 ≤ leafDist q lf := hpmin lf (by rw [hln]; exact hmem)
  have h2 : leafDist q lf ≤ p.2 := by
    rw [hp]
    exact hle lf2 (by rw [← hln]; exact hlf2)
  exact ⟨lf, by rw [hln]; exact hmem, hpred,
    by rw [hlin]; simp [le_antisymm h1 h2]⟩

unseal Rat.add Rat.mul Rat.sub Rat.inv in
/-- Counterexample for C1 as stated: at the two-leaf tree `exTree2`, whose
leaves are equidistant from `exQuery`, an exhausting `predict` (budget 2 ≥
leaf count 2) returns the backtracked leaf while the linear scan returns the
first leaf, so the full results differ even though the distances agree. -/
theorem predict_exhaustive_tie_counterexample :
    treeWF exTree2 = true ∧ (exTree2.leafNodeNum : Int) ≤ 2 ∧
    predict exTree2 exQuery exImage 2 ≠
      linearBestLeaf exQuery exTree2.leafNodes := by
  refine ⟨by decide, by decide, by decide⟩

unseal Rat.add Rat.mul Rat.sub Rat.inv in
/-- Witness for C1 (amended) at `exTree2` with budget 2. -/
theorem predict_exhaustive_exact_min_witness :
    treeWF exTree2 = true ∧ (exTree2.leafNodeNum : Int) ≤ 2 ∧
    ∃ lf, lf ∈ exTree2.leafNodes ∧
      predict exTree2 exQuery exImage 2 =
        some (labelOf lf, leafDist exQuery lf) ∧
      (linearBestLeaf exQuery exTree2.leafNodes).map Prod.snd =
        some (leafDist exQuery lf) :=
  ⟨by decide, by decide,
    predict_exhaustive_exact_min exTree2 exQuery exImage 2 (by decide)
      (by decide)⟩

/-- Claim C3: after every successful build the flat leaf array's length equals
the stored leaf count, which equals the number of leaf nodes of the tree, and
the leaf stored at position `i` carries leaf index `i`. -/
theorem build_leaf_index_invariant (t t' : BTRFTree)
    (features : List SCRFRandomSample) (labels : List (List ℚ))
    (indices : List Nat) (images : List RGBImage) (param : BTRFTreeParameter)
    (h : buildTree t features labels indices images param = (true, t')) :
    t'.leafNodes.length = t'.leafNodeNum ∧
    (∀ r, t'.root = some r → t'.leafNodeNum = leafCount r) ∧
    (∀ i, i < t'.leafNodes.length →
      leafIndexOf (t'.leafNodes.getD i defaultNode) = i) := by
  have hs : (buildTree t features labels indices images param).1 = true := by
    rw [h]
  have hwf := buildTree_wf t features labels indices images param hs
  rw [h] at hwf
  obtain ⟨r, hr, hidem, hlnr, hln, hnum⟩ := treeWF_elim t' hwf
  refine ⟨?_, ?_, ?_⟩
  · rw [hln, hnum, collectLeaves_length]
  · intro r2 hr2
    rw [hr2] at hr
    cases Option.some.inj hr
    exact hnum
  · intro i hi
    rw [hlnr] at hi ⊢
    simpa using recordLeafNodes_getD r 0 i hi

unseal Rat.add Rat.mul Rat.sub Rat.inv in
/-- Witness for C3 at the concrete one-sample build. -/
theorem build_leaf_index_invariant_witness :
    buildTree (BTRFTree.init 0) exFeatures exLabels [0] [exImage] exParam =
      (true, exBuiltTree) ∧
    exBuiltTree.leafNodes.length = exBuiltTree.leafNodeNum :=
  ⟨by decide,
    (build_leaf_index_invariant (BTRFTree.init 0) exBuiltTree exFeatures
      exLabels [0] [exImage] exParam (by decide)).1⟩

/-- Claim C9: `predict` fails on an un-built tree for every budget; on a
successfully built tree it fails exactly when `maxCheck < 1`, and with
`maxCheck ≥ 1` it returns some leaf's label and descriptor distance. -/
theorem predict_failure_status (t t' : BTRFTree)
    (features : List SCRFRandomSample) (labels : List (List ℚ))
    (indices : List Nat) (images : List RGBImage) (param : BTRFTreeParameter)
    (q : SCRFRandomSample) (img : RGBImage) (m : Int) (seed : Nat)
    (h : buildTree t features labels indices images param = (true, t')) :
    predict (BTRFTree.init seed) q img m = none ∧
    (predict t' q img m = none ↔ m < 1) ∧
    (1 ≤ m → ∃ lf, lf ∈ t'.leafNodes ∧
      predict t' q img m = some (labelOf lf, leafDist q lf)) := by
  have hs : (buildTree t features labels indices images param).1 = true := by
    rw [h]
  have hwf := buildTree_wf t features labels indices images param hs
  rw [h] at hwf
  obtain ⟨r, hr, hidem, hlnr, hln, hnum⟩ := treeWF_elim t' hwf
  have hpos := leafCount_pos r
  have hnum0 : t'.leafNodeNum ≠ 0 := by omega
  refine ⟨?_, ⟨?_, ?_⟩, ?_⟩
  · simp [predict, BTRFTree.init]
  · intro hnone
    by_contra hmlt
    push_neg at hmlt
    obtain ⟨lf, _, hpred⟩ := predict_attains t' r hr hnum0 q img m hmlt
    rw [hpred] at hnone
    exact absurd hnone (by simp)
  · intro hmlt
    simp only [predict, hr, if_pos (Or.inr hmlt)]
  · intro hm1
    obtain ⟨lf, hmem, hpred⟩ := predict_attains t' r hr hnum0 q img m hm1
    exact ⟨lf, by rw [hln]; exact hmem, hpred⟩

unseal Rat.add Rat.mul Rat.sub Rat.inv in
/-- Witness for C9: the concrete build succeeds, predict on a fresh tree
fails, and predict with budget 1 on the built tree succeeds. -/
theorem predict_failure_status_witness :
    buildTree (BTRFTree.init 0) exFeatures exLabels [0] [exImage] exParam =
      (true, exBuiltTree) ∧
    predict (BTRFTree.init 3) exQuery exImage 1 = none ∧
    (1 ≤ (1 : Int) → ∃ lf, lf ∈ exBuiltTree.leafNodes ∧
      predict exBuiltTree exQuery exImage 1 =
        some (labelOf lf, leafDist exQuery lf)) :=
  ⟨by decide,
    (predict_failure_status (BTRFTree.init 0) exBuiltTree exFeatures exLabels
      [0] [exImage] exParam exQuery exImage 1 3 (by decide)).1,
    (predict_failure_status (BTRFTree.init 0) exBuiltTree exFeatures exLabels
      [0] [exImage] exParam exQuery exImage 1 3 (by decide)).2.2⟩

/-- Claim C5: `buildTree` returns failure on inconsistent input sizes
(features/labels/indices length mismatch) or an empty index set, and performs
no mutation: the tree value is returned unchanged. -/
theorem buildTree_invalid_input (t : BTRFTree)
    (features : List SCRFRandomSample) (labels : List (List ℚ))
    (indices : List Nat) (images : List RGBImage) (param : BTRFTreeParameter)
    (h : features.length ≠ labels.length ∨
      features.length < indices.length ∨ indices = []) :
    buildTree t features labels indices images param = (false, t) := by
  rw [buildTree, if_pos h]

/-- Witness for C5: a features/labels length mismatch fails and leaves the
prior tree untouched. -/
theorem buildTree_invalid_input_witness :
    (exFeatures.length ≠ ([] : List (List ℚ)).length ∨
      exFeatures.length < [0].length ∨ ([0] : List Nat) = []) ∧
    buildTree exTree2 exFeatures [] [0] [exImage] exParam =
      (false, exTree2) :=
  ⟨by decide,
    buildTree_invalid_input exTree2 exFeatures [] [0] [exImage] exParam
      (by decide)⟩

/-- Claim C8: `buildTree` is deterministic in its inputs and the
random-source state: two calls on identical inputs and equal initial random
generator state that succeed produce identical trees (same splits, same leaf
assignments, same leaf indices). -/
theorem buildTree_deterministic (t1 t2 : BTRFTree)
    (features : List SCRFRandomSample) (labels : List (List ℚ))
    (indices : List Nat) (images : List RGBImage) (param : BTRFTreeParameter)
    (hrnd : t1.rndGenerator = t2.rndGenerator)
    (hs : (buildTree t1 features labels indices images param).1 = true) :
    (buildTree t2 features labels indices images param).1 = true ∧
    (buildTree t1 features labels indices images param).2 =
      (buildTree t2 features labels indices images param).2 := by
  by_cases hc : features.length ≠ labels.length ∨
      features.length < indices.length ∨ indices = []
  · rw [buildTree, if_pos hc] at hs
    simp at hs
  · have hs2 : (buildTree t2 features labels indices images param).1 =
        true := by
      rw [buildTree, if_neg hc]
    refine ⟨hs2, ?_⟩
    rw [buildTree_success_eq t1 features labels indices images param hs,
      buildTree_success_eq t2 features labels indices images param hs2,
      hrnd]
    simp [hashLeafNode]

unseal Rat.add Rat.mul Rat.sub Rat.inv in
/-- Witness for C8: two different prior trees with the same seed produce
identical built trees. -/
theorem buildTree_deterministic_witness :
    (BTRFTree.init 0).rndGenerator =
      (BTRFTree.mk (some defaultNode) exParam 7 [] 0).rndGenerator ∧
    (buildTree (BTRFTree.init 0) exFeatures exLabels [0] [exImage]
      exParam).1 = true ∧
    (buildTree (BTRFTree.init 0) exFeatures exLabels [0] [exImage]
        exParam).2 =
      (buildTree (BTRFTree.mk (some defaultNode) exParam 7 [] 0) exFeatures
        exLabels [0] [exImage] exParam).2 :=
  ⟨by decide, by decide,
    (buildTree_deterministic (BTRFTree.init 0)
      (BTRFTree.mk (some defaultNode) exParam 7 [] 0) exFeatures exLabels
      [0] [exImage] exParam (by decide) (by decide)).2⟩

/-- Claim C10: `computeRandomFeature` is total and deterministic; whenever
either offset pixel lands outside the image bounds it returns the single
defined sentinel value `outOfBoundsSentinel`. -/
theorem computeRandomFeature_oob_sentinel (img : RGBImage)
    (feat : SCRFRandomSample) (split : RandomSplitParameter)
    (h : insideImage img (offsetPixel1 feat split).1
        (offsetPixel1 feat split).2 = false ∨
      insideImage img (offsetPixel2 feat split).1
        (offsetPixel2 feat split).2 = false) :
    computeRandomFeature img feat split = outOfBoundsSentinel := by
  rw [computeRandomFeature]
  rcases h with h | h <;> simp [h]

unseal Rat.add Rat.mul Rat.sub Rat.inv in
/-- Witness for C10: a sample anchored at column 10 lands outside the 3x3
test image and evaluates to the sentinel. -/
theorem computeRandomFeature_oob_sentinel_witness :
    (insideImage exImage
        (offsetPixel1 (SCRFRandomSample.mk 10 1 1 0 [0]) exSplit).1
        (offsetPixel1 (SCRFRandomSample.mk 10 1 1 0 [0]) exSplit).2 = false ∨
      insideImage exImage
        (offsetPixel2 (SCRFRandomSample.mk 10 1 1 0 [0]) exSplit).1
        (offsetPixel2 (SCRFRandomSample.mk 10 1 1 0 [0]) exSplit).2 =
          false) ∧
    computeRandomFeature exImage (SCRFRandomSample.mk 10 1 1 0 [0]) exSplit =
      outOfBoundsSentinel :=
  ⟨by decide,
    computeRandomFeature_oob_sentinel exImage
      (SCRFRandomSample.mk 10 1 1 0 [0]) exSplit (by decide)⟩

/-! ### Descriptor persistence lemmas -/
theorem setDescriptorsNode_id (data : List (List ℚ)) (n : BTRFTreeNode)
    (h : ∀ lf ∈ collectLeaves n,
      data.getD (leafIndexOf lf) (descriptorOf lf) = descriptorOf lf) :
    setDescriptorsNode data n = n := by
  induction n with
  | internal d s l r ihl ihr =>
      simp only [setDescriptorsNode]
      rw [ihl (fun lf hlf => h lf (by
          simp only [collectLeaves, List.mem_append]
          exact Or.inl hlf)),
        ihr (fun lf hlf => h lf (by
          simp only [collectLeaves, List.mem_append]
          exact Or.inr hlf))]
  | leaf i lb de sa =>
      simp only [setDescriptorsNode]
      have hx := h (.leaf i lb de sa) (by simp [collectLeaves])
      simp only [leafIndexOf, descriptorOf] at hx
      rw [hx]

theorem treeWF_leafIndex_getElem (t : BTRFTree) (htw : treeWF t = true)
    (j : Nat) (hj : j < t.leafNodes.length) :
    leafIndexOf (t.leafNodes[j]) = j := by
  obtain ⟨r, hr, hidem, hlnr, hln, hnum⟩ := treeWF_elim t htw
  have hj2 : j < (recordLeafNodes r 0).2.1.length := by
    rw [← hlnr]
    exact hj
  have hgd := recordLeafNodes_getD r 0 j hj2
  rw [← hlnr, List.getD_eq_getElem _ _ hj] at hgd
  simpa using hgd

theorem treeWF_getDescriptor_prop (t : BTRFTree) (htw : treeWF t = true) :
    ∀ lf ∈ t.leafNodes,
      (getLeafNodeDescriptor t).getD (leafIndexOf lf) (descriptorOf lf) =
        descriptorOf lf := by
  intro lf hlf
  obtain ⟨j, hj, hget⟩ := List.getElem_of_mem hlf
  have hidx : leafIndexOf lf = j := by
    rw [← hget]
    exact treeWF_leafIndex_getElem t htw j hj
  rw [hidx, getLeafNodeDescriptor,
    List.getD_eq_getElem _ _ (by simpa using hj), List.getElem_map, hget]

/-- Claim C6: `setLeafNodeDescriptor` with a row count different from the
current leaf count reports the error and leaves the tree (and so every
current leaf descriptor) unchanged; with a matching row count it succeeds and
overwrites the descriptor of leaf `i` with row `i` for every `i`. -/
theorem setLeafNodeDescriptor_shape (t : BTRFTree) (data : List (List ℚ))
    (htw : treeWF t = true) :
    (data.length ≠ t.leafNodeNum →
      setLeafNodeDescriptor t data = (false, t)) ∧
    (data.length = t.leafNodeNum →
      (setLeafNodeDescriptor t data).1 = true ∧
      ∀ i, i < t.leafNodeNum →
        descriptorOf ((setLeafNodeDescriptor t data).2.leafNodes.getD i
          defaultNode) = data.getD i []) := by
  obtain ⟨r, hr, hidem, hlnr, hln, hnum⟩ := treeWF_elim t htw
  have hlen : t.leafNodes.length = t.leafNodeNum := by
    rw [hln, hnum, collectLeaves_length]
  refine ⟨fun hne => by rw [setLeafNodeDescriptor, if_pos hne], fun heq => ?_⟩
  refine ⟨by rw [setLeafNodeDescriptor, if_neg (by omega)], ?_⟩
  intro i hi
  rw [setLeafNodeDescriptor, if_neg (by omega)]
  have hi2 : i < t.leafNodes.length := by omega
  have hmaplen : i < (t.leafNodes.map (setDescriptorsNode data)).length := by
    simpa using hi2
  show descriptorOf ((t.leafNodes.map (setDescriptorsNode data)).getD i
    defaultNode) = data.getD i []
  rw [List.getD_eq_getElem _ _ hmaplen, List.getElem_map]
  have hshape : ∃ a lb de sa, t.leafNodes[i] = .leaf a lb de sa := by
    refine rln_mem_leaf (n := r) (k := 0) ?_
    rw [← hlnr]
    exact List.getElem_mem hi2
  obtain ⟨a, lb, de, sa, hsh⟩ := hshape
  have ha : a = i := by
    have hx := treeWF_leafIndex_getElem t htw i hi2
    rw [hsh] at hx
    simpa [leafIndexOf] using hx
  rw [hsh, ha]
  simp only [setDescriptorsNode, descriptorOf]
  rw [List.getD_eq_getElem _ _ (by omega : i < data.length),
    List.getD_eq_getElem _ _ (by omega : i < data.length)]

unseal Rat.add Rat.mul Rat.sub Rat.inv in
/-- Witness for C6 at the two-leaf tree: a one-row matrix is rejected without
mutation, a two-row matrix overwrites leaf 0's descriptor with row 0. -/
theorem setLeafNodeDescriptor_shape_witness :
    treeWF exTree2 = true ∧
    setLeafNodeDescriptor exTree2 [[5]] = (false, exTree2) ∧
    descriptorOf ((setLeafNodeDescriptor exTree2 [[5], [6]]).2.leafNodes.getD
      0 defaultNode) = ([[5], [6]] : List (List ℚ)).getD 0 [] :=
  ⟨by decide,
    (setLeafNodeDescriptor_shape exTree2 [[5]] (by decide)).1 (by decide),
    ((setLeafNodeDescriptor_shape exTree2 [[5], [6]] (by decide)).2
      (by decide)).2 0 (by decide)⟩

/-- Claim C7: on a built tree, the round trip
`setLeafNodeDescriptor (getLeafNodeDescriptor t)` succeeds, leaves every leaf
descriptor (indeed the whole tree) unchanged, and every subsequent `predict`
call returns the same result as before the round trip. -/
theorem descriptor_roundtrip (t : BTRFTree) (htw : treeWF t = true) :
    setLeafNodeDescriptor t (getLeafNodeDescriptor t) = (true, t) ∧
    ∀ q img m,
      predict (setLeafNodeDescriptor t (getLeafNodeDescriptor t)).2 q img m =
        predict t q img m := by
  obtain ⟨r, hr, hidem, hlnr, hln, hnum⟩ := treeWF_elim t htw
  have hlen : (getLeafNodeDescriptor t).length = t.leafNodeNum := by
    rw [getLeafNodeDescriptor]
    simp only [List.length_map]
    rw [hln, hnum, collectLeaves_length]
  have hprop := treeWF_getDescriptor_prop t htw
  have hroot : t.root.map (setDescriptorsNode (getLeafNodeDescriptor t)) =
      t.root := by
    rw [hr]
    simp only [Option.map]
    rw [setDescriptorsNode_id _ r (fun lf hlf => hprop lf (by
      rw [hln]; exact hlf))]
  have hleaf : t.leafNodes.map (setDescriptorsNode
      (getLeafNodeDescriptor t)) = t.leafNodes := by
    have hcong : ∀ lf ∈ t.leafNodes,
        setDescriptorsNode (getLeafNodeDescriptor t) lf = lf := by
      intro lf hlf
      obtain ⟨a, lb, de, sa, hsh⟩ := rln_mem_leaf (n := r) (k := 0)
        (by rw [← hlnr]; exact hlf)
      have hx := hprop lf hlf
      rw [hsh] at hx ⊢
      simp only [leafIndexOf, descriptorOf] at hx
      simp only [setDescriptorsNode, hx]
    rw [List.map_congr_left hcong]
    simp
  have hmain : setLeafNodeDescriptor t (getLeafNodeDescriptor t) =
      (true, t) := by
    rw [setLeafNodeDescriptor, if_neg (by omega)]
    rw [hroot, hleaf]
  exact ⟨hmain, fun q img m => by rw [hmain]⟩

unseal Rat.add Rat.mul Rat.sub Rat.inv in
/-- Witness for C7 at the two-leaf tree. -/
theorem descriptor_roundtrip_witness :
    treeWF exTree2 = true ∧
    setLeafNodeDescriptor exTree2 (getLeafNodeDescriptor exTree2) =
      (true, exTree2) :=
  ⟨by decide, (descriptor_roundtrip exTree2 (by decide)).1⟩

/-! ### Split partition lemmas -/
theorem optimizeThreshold_partition (features : List SCRFRandomSample)
    (labels : List (List ℚ)) (images : List RGBImage) (indices : List Nat)
    (param : BTRFTreeParameter) (split0 : RandomSplitParameter)
    (c : ℚ × RandomSplitParameter × List Nat × List Nat)
    (h : optimizeThreshold features labels images indices param split0 =
      some c) :
    c.2.2 = splitIndices features images c.2.1 indices := by
  cases hb : bestValidThreshold features labels images indices split0
      (candidateThresholds
        (indices.map (sampleResponse features images split0))
        param.candidateThresholdNum) with
  | none =>
      simp only [optimizeThreshold, hb] at h
      exact absurd h (by simp)
  | some p =>
      obtain ⟨sc, thr⟩ := p
      simp only [optimizeThreshold, hb] at h
      rw [← Option.some.inj h]

theorem optimizeFeatureStep_partition (features : List SCRFRandomSample)
    (labels : List (List ℚ)) (images : List RGBImage) (indices : List Nat)
    (param : BTRFTreeParameter)
    (acc : Option (ℚ × RandomSplitParameter × List Nat × List Nat) × Nat)
    (k : Nat)
    (hacc : ∀ c, acc.1 = some c →
      c.2.2 = splitIndices features images c.2.1 indices) :
    ∀ c, (optimizeFeatureStep features labels images indices param acc k).1 =
        some c →
      c.2.2 = splitIndices features images c.2.1 indices := by
  intro c hc
  cases hot : optimizeThreshold features labels images indices param
      (generateRandomFeature acc.2).1 with
  | none =>
      simp only [optimizeFeatureStep, hot] at hc
      exact hacc c hc
  | some c2 =>
      cases hacc1 : acc.1 with
      | none =>
          simp only [optimizeFeatureStep, hot, hacc1] at hc
          rw [← Option.some.inj hc]
          exact optimizeThreshold_partition features labels images indices
            param _ c2 hot
      | some b =>
          simp only [optimizeFeatureStep, hot, hacc1] at hc
          by_cases hcmp : c2.1 < b.1
          · rw [if_pos hcmp] at hc
            rw [← Option.some.inj hc]
            exact optimizeThreshold_partition features labels images indices
              param _ c2 hot
          · rw [if_neg hcmp] at hc
            exact hacc c (by rw [hacc1, hc])

theorem foldl_optimizeFeatureStep_partition
    (features : List SCRFRandomSample) (labels : List (List ℚ))
    (images : List RGBImage) (indices : List Nat)
    (param : BTRFTreeParameter) (L : List Nat)
    (acc : Option (ℚ × RandomSplitParameter × List Nat × List Nat) × Nat)
    (hacc : ∀ c, acc.1 = some c →
      c.2.2 = splitIndices features images c.2.1 indices) :
    ∀ c, (L.foldl
        (optimizeFeatureStep features labels images indices param) acc).1 =
      some c → c.2.2 = splitIndices features images c.2.1 indices := by
  induction L generalizing acc with
  | nil => exact hacc
  | cons k rest ih =>
      intro c hc
      refine ih (optimizeFeatureStep features labels images indices param
        acc k) ?_ c hc
      exact optimizeFeatureStep_partition features labels images indices
        param acc k hacc

theorem optimizeRandomFeature_partition (features : List SCRFRandomSample)
    (labels : List (List ℚ)) (images : List RGBImage) (indices : List Nat)
    (param : BTRFTreeParameter) (rnd : Nat)
    (c : ℚ × RandomSplitParameter × List Nat × List Nat)
    (h : (optimizeRandomFeature features labels images indices param
      rnd).1 = some c) :
    c.2.2 = splitIndices features images c.2.1 indices := by
  refine foldl_optimizeFeatureStep_partition features labels images indices
    param (List.range param.candidateFeatureNum) (none, rnd) ?_ c h
  intro c2 hc2
  simp at hc2

/-! ### Training-sample partition and routing through built trees -/
theorem build_leaves_sub (features : List SCRFRandomSample)
    (labels : List (List ℚ)) (images : List RGBImage)
    (param : BTRFTreeParameter) :
    ∀ (fuel : Nat) (indices : List Nat) (depth rnd : Nat),
      ∀ lf ∈ collectLeaves (buildTreeImpl features labels images param fuel
        indices depth rnd).1, ∀ i ∈ sampleIndicesOf lf, i ∈ indices := by
  intro fuel
  induction fuel with
  | zero =>
      intro indices depth rnd lf hlf i hi
      simp only [buildTreeImpl, setLeafNode, collectLeaves,
        List.mem_singleton] at hlf
      rw [hlf] at hi
      simpa [sampleIndicesOf] using hi
  | succ fuel ih =>
      intro indices depth rnd lf hlf i hi
      by_cases hstop : indices.length ≤ param.minLeafNode ∨
          labelVariance labels indices = 0
      · simp only [buildTreeImpl, if_pos hstop, setLeafNode, collectLeaves,
          List.mem_singleton] at hlf
        rw [hlf] at hi
        simpa [sampleIndicesOf] using hi
      · rcases hopt : optimizeRandomFeature features labels images indices
            param rnd with ⟨o, rnd1⟩
        cases o with
        | none =>
            simp only [buildTreeImpl, if_neg hstop, hopt, setLeafNode,
              collectLeaves, List.mem_singleton] at hlf
            rw [hlf] at hi
            simpa [sampleIndicesOf] using hi
        | some c =>
            obtain ⟨sc, sp, li, ri⟩ := c
            have hpart := optimizeRandomFeature_partition features labels
              images indices param rnd (sc, sp, li, ri) (by rw [hopt])
            simp only [splitIndices, Prod.mk.injEq] at hpart
            simp only [buildTreeImpl, if_neg hstop, hopt, collectLeaves,
              List.mem_append] at hlf
            rcases hlf with hl | hr
            · have hin := ih li (depth + 1) rnd1 lf hl i hi
              rw [hpart.1] at hin
              exact (List.mem_filter.mp hin).1
            · have hin := ih ri (depth + 1)
                (buildTreeImpl features labels images param fuel li
                  (depth + 1) rnd1).2 lf hr i hi
              rw [hpart.2] at hin
              exact (List.mem_filter.mp hin).1

theorem build_countP (features : List SCRFRandomSample)
    (labels : List (List ℚ)) (images : List RGBImage)
    (param : BTRFTreeParameter) :
    ∀ (fuel : Nat) (indices : List Nat) (depth rnd : Nat) (i : Nat),
      i ∈ indices →
      ((collectLeaves (buildTreeImpl features labels images param fuel
          indices depth rnd).1).countP
        (fun lf => decide (i ∈ sampleIndicesOf lf))) = 1 := by
  intro fuel
  induction fuel with
  | zero =>
      intro indices depth rnd i hi
      simp [buildTreeImpl, setLeafNode, collectLeaves, sampleIndicesOf,
        List.countP_cons, hi]
  | succ fuel ih =>
      intro indices depth rnd i hi
      by_cases hstop : indices.length ≤ param.minLeafNode ∨
          labelVariance labels indices = 0
      · simp [buildTreeImpl, if_pos hstop, setLeafNode, collectLeaves,
          sampleIndicesOf, List.countP_cons, hi]
      · rcases hopt : optimizeRandomFeature features labels images indices
            param rnd with ⟨o, rnd1⟩
        cases o with
        | none =>
            simp [buildTreeImpl, if_neg hstop, hopt, setLeafNode,
              collectLeaves, sampleIndicesOf, List.countP_cons, hi]
        | some c =>
            obtain ⟨sc, sp, li, ri⟩ := c
            have hpart := optimizeRandomFeature_partition features labels
              images indices param rnd (sc, sp, li, ri) (by rw [hopt])
            simp only [splitIndices, Prod.mk.injEq] at hpart
            simp only [buildTreeImpl, if_neg hstop, hopt, collectLeaves,
              List.countP_append]
            by_cases hgl : splitGoesLeft features images sp i
            · have hil : i ∈ li := by
                rw [hpart.1]
                exact List.mem_filter.mpr ⟨hi, hgl⟩
              have hnr : i ∉ ri := by
                rw [hpart.2]
                intro hmem
                have := (List.mem_filter.mp hmem).2
                rw [hgl] at this
                simp at this
              have hzero : ((collectLeaves (buildTreeImpl features labels
                  images param fuel ri (depth + 1)
                  (buildTreeImpl features labels images param fuel li
                    (depth + 1) rnd1).2).1).countP
                (fun lf => decide (i ∈ sampleIndicesOf lf))) = 0 := by
                refine List.countP_eq_zero.mpr ?_
                intro lf hlf
                simp only [decide_eq_true_eq]
                intro hin
                exact hnr (build_leaves_sub features labels images param
                  fuel ri (depth + 1) _ lf hlf i hin)
              rw [ih li (depth + 1) rnd1 i hil, hzero]
            · have hir : i ∈ ri := by
                rw [hpart.2]
                refine List.mem_filter.mpr ⟨hi, ?_⟩
                simp [hgl]
              have hnl : i ∉ li := by
                rw [hpart.1]
                intro hmem
                exact hgl (List.mem_filter.mp hmem).2
              have hzero : ((collectLeaves (buildTreeImpl features labels
                  images param fuel li (depth + 1) rnd1).1).countP
                (fun lf => decide (i ∈ sampleIndicesOf lf))) = 0 := by
                refine List.countP_eq_zero.mpr ?_
                intro lf hlf
                simp only [decide_eq_true_eq]
                intro hin
                exact hnl (build_leaves_sub features labels images param
                  fuel li (depth + 1) rnd1 lf hlf i hin)
              rw [ih ri (depth + 1) _ i hir, hzero]

theorem build_route (features : List SCRFRandomSample)
    (labels : List (List ℚ)) (images : List RGBImage)
    (param : BTRFTreeParameter) :
    ∀ (fuel : Nat) (indices : List Nat) (depth rnd : Nat) (i : Nat),
      i ∈ indices →
      i ∈ sampleIndicesOf (routeSample features images i
        (buildTreeImpl features labels images param fuel indices depth
          rnd).1) := by
  intro fuel
  induction fuel with
  | zero =>
      intro indices depth rnd i hi
      simpa [buildTreeImpl, setLeafNode, routeSample, sampleIndicesOf]
        using hi
  | succ fuel ih =>
      intro indices depth rnd i hi
      by_cases hstop : indices.length ≤ param.minLeafNode ∨
          labelVariance labels indices = 0
      · simpa [buildTreeImpl, if_pos hstop, setLeafNode, routeSample,
          sampleIndicesOf] using hi
      · rcases hopt : optimizeRandomFeature features labels images indices
            param rnd with ⟨o, rnd1⟩
        cases o with
        | none =>
            simpa [buildTreeImpl, if_neg hstop, hopt, setLeafNode,
              routeSample, sampleIndicesOf] using hi
        | some c =>
            obtain ⟨sc, sp, li, ri⟩ := c
            have hpart := optimizeRandomFeature_partition features labels
              images indices param rnd (sc, sp, li, ri) (by rw [hopt])
            simp only [splitIndices, Prod.mk.injEq] at hpart
            simp only [buildTreeImpl, if_neg hstop, hopt, routeSample]
            by_cases hgl : splitGoesLeft features images sp i
            · rw [if_pos hgl]
              refine ih li (depth + 1) rnd1 i ?_
              rw [hpart.1]
              exact List.mem_filter.mpr ⟨hi, hgl⟩
            · rw [if_neg hgl]
              refine ih ri (depth + 1) _ i ?_
              rw [hpart.2]
              refine List.mem_filter.mpr ⟨hi, ?_⟩
              simp [hgl]

theorem rln_route (features : List SCRFRandomSample)
    (images : List RGBImage) (i : Nat) (n : BTRFTreeNode) (k : Nat) :
    sampleIndicesOf (routeSample features images i
        (recordLeafNodes n k).1) =
      sampleIndicesOf (routeSample features images i n) := by
  induction n generalizing k with
  | internal d s l r ihl ihr =>
      simp only [recordLeafNodes, routeSample]
      by_cases hgl : splitGoesLeft features images s i
      · rw [if_pos hgl, if_pos hgl, ihl]
      · rw [if_neg hgl, if_neg hgl, ihr]
  | leaf a lb de sa =>
      simp [recordLeafNodes, routeSample, sampleIndicesOf]

theorem rln_countP (n : BTRFTreeNode) (k : Nat) (p : List Nat → Bool) :
    ((recordLeafNodes n k).2.1.countP (fun lf => p (sampleIndicesOf lf))) =
      ((collectLeaves n).countP (fun lf => p (sampleIndicesOf lf))) := by
  induction n generalizing k with
  | internal d s l r ihl ihr =>
      simp only [recordLeafNodes, collectLeaves, List.countP_append,
        ihl, ihr]
  | leaf a lb de sa =>
      simp [recordLeafNodes, collectLeaves, sampleIndicesOf,
        List.countP_cons]

/-- Claim C4: in every successfully built tree, routing a training sample
index from the root by its own feature responses (left iff response <
threshold) lands in the leaf holding that index; exactly one leaf of the tree
holds the index; and at every split the left/right partitions cover the
parent's subset disjointly. -/
theorem build_partition_route (t t' : BTRFTree)
    (features : List SCRFRandomSample) (labels : List (List ℚ))
    (indices : List Nat) (images : List RGBImage) (param : BTRFTreeParameter)
    (h : buildTree t features labels indices images param = (true, t'))
    (r : BTRFTreeNode) (hr : t'.root = some r) (i : Nat) (hi : i ∈ indices) :
    i ∈ sampleIndicesOf (routeSample features images i r) ∧
    ((collectLeaves r).countP
      (fun lf => decide (i ∈ sampleIndicesOf lf))) = 1 ∧
    ∀ (sp : RandomSplitParameter) (idx2 : List Nat), i ∈ idx2 →
      ((i ∈ (splitIndices features images sp idx2).1 ∨
        i ∈ (splitIndices features images sp idx2).2) ∧
       ¬(i ∈ (splitIndices features images sp idx2).1 ∧
         i ∈ (splitIndices features images sp idx2).2)) := by
  have hs : (buildTree t features labels indices images param).1 = true := by
    rw [h]
  have heq := buildTree_success_eq t features labels indices images param hs
  rw [h] at heq
  have heq2 : t' = _ := heq
  have hroot : t'.root = some (recordLeafNodes
      (buildTreeImpl features labels images param param.maxTreeDepth indices
        0 t.rndGenerator).1 0).1 := by
    rw [heq2]
    rfl
  rw [hroot] at hr
  have hr2 := (Option.some.inj hr).symm
  refine ⟨?_, ?_, ?_⟩
  · rw [hr2, rln_route]
    exact build_route features labels images param param.maxTreeDepth
      indices 0 t.rndGenerator i hi
  · rw [hr2, collectLeaves_recordLeafNodes]
    rw [rln_countP _ 0 (fun sa => decide (i ∈ sa))]
    exact build_countP features labels images param param.maxTreeDepth
      indices 0 t.rndGenerator i hi
  · intro sp idx2 hii
    simp only [splitIndices]
    constructor
    · by_cases hgl : splitGoesLeft features images sp i
      · exact Or.inl (List.mem_filter.mpr ⟨hii, hgl⟩)
      · exact Or.inr (List.mem_filter.mpr ⟨hii, by simp [hgl]⟩)
    · rintro ⟨h1, h2⟩
      have g1 := (List.mem_filter.mp h1).2
      have g2 := (List.mem_filter.mp h2).2
      rw [g1] at g2
      simp at g2

unseal Rat.add Rat.mul Rat.sub Rat.inv in
/-- Witness for C4 at the concrete one-sample build: index 0 routes to the
single leaf, which holds it, and exactly one leaf holds it. -/
theorem build_partition_route_witness :
    buildTree (BTRFTree.init 0) exFeatures exLabels [0] [exImage] exParam =
      (true, exBuiltTree) ∧
    ∃ r, exBuiltTree.root = some r ∧
      0 ∈ sampleIndicesOf (routeSample exFeatures [exImage] 0 r) ∧
      ((collectLeaves r).countP
        (fun lf => decide (0 ∈ sampleIndicesOf lf))) = 1 := by
  have hb : buildTree (BTRFTree.init 0) exFeatures exLabels [0] [exImage]
      exParam = (true, exBuiltTree) := by decide
  have hroot : ∃ r, exBuiltTree.root = some r := by
    cases hroo : exBuiltTree.root with
    | none => exact absurd hroo (by decide)
    | some r => exact ⟨r, rfl⟩
  obtain ⟨r, hr⟩ := hroot
  have hmain := build_partition_route (BTRFTree.init 0) exBuiltTree
    exFeatures exLabels [0] [exImage] exParam hb r hr 0 (by decide)
  exact ⟨hb, r, hr, hmain.1, hmain.2.1⟩

end BTRF
